import Mathlib

/-!
Verification of the history-extraction and group-registry core of `tnm`
(`tnm.py`).  Python strings are modelled as `List Char`; the shell
environment and the filesystem are passed explicitly: history files are a
partial map from a path to the list of raw lines `readlines` would return,
and the JSON group registry is a small explicit state.  Python `int` is
modelled as `Int`.
-/

namespace Tnm

/-- Python `str.strip()`: remove leading and trailing whitespace. -/
def pyStrip (s : List Char) : List Char :=
  ((s.dropWhile Char.isWhitespace).reverse.dropWhile Char.isWhitespace).reverse

/-- Python `l.split(';', 1)[1]`: everything after the first `';'`
(the empty list when no `';'` occurs). -/
def afterSemi : List Char → List Char
  | [] => []
  | c :: cs => if c = ';' then cs else afterSemi cs

/-- Python substring containment `t in s` (contiguous substring). -/
def containsSub (t : List Char) : List Char → Bool
  | [] => t.isEmpty
  | c :: rest => t.isPrefixOf (c :: rest) || containsSub t rest

/-- The timestamp-prefix stripping idiom shared by `get_last_command`
(tnm.py lines 62-63) and `read_history_last` (lines 141-142):
`if l.startswith(':') and ';' in l: l = l.split(';', 1)[1]`. -/
def stripTs (l : List Char) : List Char :=
  if l.head? = some ':' ∧ ';' ∈ l then afterSemi l else l

/-- The three tokens that recognise the current tnm invocation
(tnm.py lines 21-28 and 161-168): `' '.join(sys.argv)`,
`Path(sys.argv[0]).name` and `Path(sys.argv[0]).stem`. -/
structure Invocation where
  invoked : List Char
  basename : List Char
  stem : List Char

/-- `_looks_like_invocation` (tnm.py lines 159-176): a command is taken to
be a self-invocation when any non-empty token occurs as a substring of the
stripped command.  Python truthiness `if invoked and ...` is the
non-emptiness guard. -/
def _looks_like_invocation (inv : Invocation) (cmd : List Char) : Bool :=
  (!inv.invoked.isEmpty && containsSub inv.invoked (pyStrip cmd)) ||
  (!inv.basename.isEmpty && containsSub inv.basename (pyStrip cmd)) ||
  (!inv.stem.isEmpty && containsSub inv.stem (pyStrip cmd))

/-- The closure `looks_like_invocation` inside `get_last_command`
(tnm.py lines 30-41); identical to `_looks_like_invocation` except for the
leading `if not cmd: return False`. -/
def looks_like_invocation (inv : Invocation) (cmd : List Char) : Bool :=
  if cmd.isEmpty then false
  else
    (!inv.invoked.isEmpty && containsSub inv.invoked (pyStrip cmd)) ||
    (!inv.basename.isEmpty && containsSub inv.basename (pyStrip cmd)) ||
    (!inv.stem.isEmpty && containsSub inv.stem (pyStrip cmd))

/-- The environment consulted by both extractors: `$SHELL` (with its
`'bash'` default already applied), `$HISTFILE`, and the results of
`os.path.expanduser` on `'~/.zsh_history'` and `'~/.bash_history'`. -/
structure Env where
  shell : List Char
  histfile : Option (List Char)
  zsh_history : List Char
  bash_history : List Char

/-- The filesystem as seen through `open(...).readlines()`: `none` when
opening raises, otherwise the raw lines of the file. -/
def FileSys : Type := List Char → Option (List (List Char))

/-- Candidate history files of `get_last_command` (tnm.py lines 42-50):
`$HISTFILE` when set and non-empty, then `~/.zsh_history` for a shell
ending in `zsh`, otherwise `~/.bash_history`. -/
def candidatesGLC (e : Env) : List (List Char) :=
  (match e.histfile with
   | some h => if h.isEmpty then [] else [h]
   | none => []) ++
  (if "zsh".toList.isSuffixOf e.shell then [e.zsh_history] else [e.bash_history])

/-- Candidate history files of `read_history_last` (tnm.py lines 121-128):
`$HISTFILE` when set and non-empty, then `~/.zsh_history` for a zsh shell,
then always `~/.bash_history`. -/
def candidatesRHL (e : Env) : List (List Char) :=
  (match e.histfile with
   | some h => if h.isEmpty then [] else [h]
   | none => []) ++
  (if "zsh".toList.isSuffixOf e.shell then [e.zsh_history] else []) ++
  [e.bash_history]

/-- The inner loop of `get_last_command` (tnm.py lines 55-68) applied to an
already-reversed list of raw lines: strip, skip blanks, strip a zsh
timestamp prefix, skip entries of stripped length at most 1, skip
self-invocations, and return the first survivor. -/
def scanGLC (inv : Invocation) : List (List Char) → Option (List Char)
  | [] => none
  | line :: rest =>
    if (pyStrip line).isEmpty then scanGLC inv rest
    else if (pyStrip (stripTs (pyStrip line))).length ≤ 1 then scanGLC inv rest
    else if looks_like_invocation inv (stripTs (pyStrip line)) = false then
      some (stripTs (pyStrip line))
    else scanGLC inv rest

/-- The candidate-file loop of `get_last_command` (tnm.py lines 52-70):
a file that cannot be opened, or yields no surviving line, falls through
to the next candidate. -/
def goGLC (inv : Invocation) (fs : FileSys) : List (List Char) → Option (List Char)
  | [] => none
  | p :: ps =>
    match fs p with
    | none => goGLC inv fs ps
    | some raw =>
      match scanGLC inv raw.reverse with
      | some c => some c
      | none => goGLC inv fs ps

/-- `get_last_command` (tnm.py lines 8-72).  The body only ever reads
history files; no shell process is involved. -/
def get_last_command (inv : Invocation) (e : Env) (fs : FileSys) : Option (List Char) :=
  goGLC inv fs (candidatesGLC e)

/-- The collection loop of `read_history_last` (tnm.py lines 137-153)
applied to the already-reversed pre-stripped lines: strip a timestamp
prefix, re-strip, skip blanks, self-invocations and single-character
entries, append survivors to `cmds`, and stop once `len(cmds) >= n`. -/
def collectCmds (inv : Invocation) (n : Int) (acc : List (List Char)) :
    List (List Char) → List (List Char)
  | [] => acc
  | line :: rest =>
    if (pyStrip (stripTs line)).isEmpty then collectCmds inv n acc rest
    else if _looks_like_invocation inv (pyStrip (stripTs line)) = true then
      collectCmds inv n acc rest
    else if (pyStrip (stripTs line)).length ≤ 1 then collectCmds inv n acc rest
    else if ((acc.length : Int) + 1) ≥ n then acc ++ [pyStrip (stripTs line)]
    else collectCmds inv n (acc ++ [pyStrip (stripTs line)]) rest

/-- The candidate-file loop of `read_history_last` (tnm.py lines 130-156):
lines are pre-stripped with blanks removed (line 133); a file yielding no
accepted command falls through to the next candidate, and an accepted
batch is returned oldest-first. -/
def goRHL (inv : Invocation) (fs : FileSys) (n : Int) : List (List Char) → List (List Char)
  | [] => []
  | p :: ps =>
    match fs p with
    | none => goRHL inv fs n ps
    | some raw =>
      if (collectCmds inv n []
            (((raw.map pyStrip).filter (fun l => !l.isEmpty)).reverse)).isEmpty then
        goRHL inv fs n ps
      else
        (collectCmds inv n []
          (((raw.map pyStrip).filter (fun l => !l.isEmpty)).reverse)).reverse

/-- `read_history_last` (tnm.py lines 115-156). -/
def read_history_last (inv : Invocation) (e : Env) (fs : FileSys) (n : Int) :
    List (List Char) :=
  goRHL inv fs n (candidatesRHL e)

/-- Python `'\n'.join(entries)` generalised to an arbitrary separator. -/
def pyJoin (sep : List Char) : List (List Char) → List Char
  | [] => []
  | [x] => x
  | x :: y :: xs => x ++ sep ++ pyJoin sep (y :: xs)

/-- `build_entry` (tnm.py lines 75-90), with the timestamp and working
directory passed in for `datetime.now()` and `os.getcwd()`. -/
def build_entry (ts cwd title cmd desc : List Char) : List Char :=
  pyJoin "\n".toList
    ["# ".toList ++ title,
     [],
     "*Saved: ".toList ++ ts ++ " — cwd: ".toList ++ cwd ++ "*".toList,
     [],
     "```bash".toList,
     cmd,
     "```".toList,
     [],
     desc,
     [],
     "---".toList] ++ "\n".toList

/-- `build_session_entry` (tnm.py lines 93-112): like `build_entry` but the
fenced block holds every command of the session and is introduced by a
`Session commands:` line. -/
def build_session_entry (ts cwd title : List Char) (cmds : List (List Char))
    (desc : List Char) : List Char :=
  pyJoin "\n".toList
    (["# ".toList ++ title,
      [],
      "*Saved: ".toList ++ ts ++ " — cwd: ".toList ++ cwd ++ "*".toList,
      [],
      "Session commands:".toList,
      [],
      "```bash".toList] ++
     cmds ++
     ["```".toList,
      [],
      desc,
      [],
      "---".toList]) ++ "\n".toList

/-! ### Group registry (tnm.py lines 179-224)

The registry file is a JSON object mapping names to paths; Python's
`dict[str, str]` is modelled as an association list.  The file itself is
modelled as either absent, unreadable/unparsable (`corrupt`, covering every
exception path of `load_groups`), or a stored mapping; `json.dump` followed
by `json.load` on a string-to-string dict is the identity, so a successful
write stores the mapping itself.  `writable` is the oracle for whether
`mkdir`/`open`/`dump` in `save_groups` succeed.  -/

/-- The registry file's observable states. -/
inductive RegFile
  | absent
  | corrupt
  | stored (m : List (String × String))

/-- The configuration-directory state threaded through the registry
operations. -/
structure FsState where
  file : RegFile
  writable : Bool

/-- Python `name in groups`. -/
def dictHas (m : List (String × String)) (k : String) : Bool :=
  m.any (fun p => p.1 == k)

/-- Python `groups.get(name)`. -/
def dictGet (m : List (String × String)) (k : String) : Option String :=
  (m.find? (fun p => p.1 == k)).map (fun p => p.2)

/-- Python `groups[name] = target`: replace in place when the key exists,
append otherwise. -/
def dictSet (m : List (String × String)) (k v : String) : List (String × String) :=
  if dictHas m k then m.map (fun p => if p.1 == k then (k, v) else p)
  else m ++ [(k, v)]

/-- `load_groups` (tnm.py lines 183-191): every failure path — missing
file, unreadable file, unparsable JSON — degrades to the empty mapping. -/
def load_groups (st : FsState) : List (String × String) :=
  match st.file with
  | RegFile.stored m => m
  | _ => []

/-- `save_groups` (tnm.py lines 194-201): overwrite the registry file,
returning `false` (and leaving the file as it was) on any I/O failure. -/
def save_groups (groups : List (String × String)) (st : FsState) : Bool × FsState :=
  if st.writable then (true, { st with file := RegFile.stored groups })
  else (false, st)

/-- `create_group` (tnm.py lines 204-219), with `os.path.expanduser`
passed in as `expandUser`.  The best-effort pre-creation of the target
markdown file (lines 210-217) touches a different file and never affects
the registry, so it is not part of this state. -/
def create_group (expandUser : String → String) (name path : String)
    (overwrite : Bool) (st : FsState) : Bool × FsState :=
  let groups := load_groups st
  if dictHas groups name && !overwrite then (false, st)
  else save_groups (dictSet groups name (expandUser path)) st

/-- `get_group_path` (tnm.py lines 222-224). -/
def get_group_path (name : String) (st : FsState) : Option String :=
  dictGet (load_groups st) name

/-! ### Spec-side definitions

These follow the specification's words, to be compared with the embedded
code above.  -/

/-- One line of `read_history_last`'s acceptance pipeline: the stripped,
prefix-stripped command when the line survives every filter. -/
def processLine (inv : Invocation) (line : List Char) : Option (List Char) :=
  if (pyStrip (stripTs line)).isEmpty then none
  else if _looks_like_invocation inv (pyStrip (stripTs line)) = true then none
  else if (pyStrip (stripTs line)).length ≤ 1 then none
  else some (pyStrip (stripTs line))

/-- The accepted commands of one history file, in file (chronological)
order. -/
def acceptedCmds (inv : Invocation) (raw : List (List Char)) : List (List Char) :=
  ((raw.map pyStrip).filter (fun l => !l.isEmpty)).filterMap (processLine inv)

/-- Modelled from the spec's description of last-N import: scan candidate
files in priority order; from the first file that yields any accepted line
take up to `n` accepted lines from the end and return them oldest-first;
return the empty sequence when no candidate yields one. -/
def specGoRHL (inv : Invocation) (fs : FileSys) (n : Nat) : List (List Char) → List (List Char)
  | [] => []
  | p :: ps =>
    match fs p with
    | none => specGoRHL inv fs n ps
    | some raw =>
      if (acceptedCmds inv raw).isEmpty then specGoRHL inv fs n ps
      else ((acceptedCmds inv raw).reverse.take n).reverse

/-- The spec-side counterpart of `read_history_last`. -/
def read_history_last_spec (inv : Invocation) (e : Env) (fs : FileSys) (n : Int) :
    List (List Char) :=
  specGoRHL inv fs n.toNat (candidatesRHL e)

/-- The most recent accepted command of the first candidate file that
yields any accepted command (used to state the n ≤ 0 behaviour). -/
def lastAcceptedFirstFile (inv : Invocation) (fs : FileSys) :
    List (List Char) → Option (List Char)
  | [] => none
  | p :: ps =>
    match fs p with
    | none => lastAcceptedFirstFile inv fs ps
    | some raw =>
      if (acceptedCmds inv raw).isEmpty then lastAcceptedFirstFile inv fs ps
      else (acceptedCmds inv raw).getLast?

/-- A token is well-formed for the self-invocation filter when it is
non-empty and has no leading or trailing whitespace (as the argv join,
basename and stem of a normal run do). -/
def tokenOk (t : List Char) : Bool :=
  !t.isEmpty && !(t.head?.any Char.isWhitespace) && !(t.getLast?.any Char.isWhitespace)

/-- A history line mentions the current invocation when it contains one of
the three tokens as a substring. -/
def mentionsInvocation (inv : Invocation) (l : List Char) : Bool :=
  containsSub inv.invoked l || containsSub inv.basename l || containsSub inv.stem l

/-- A zsh-style timestamped history line `: <t1>:<t2>;<cmd>`. -/
def tsLine (t1 t2 cmd : List Char) : List Char :=
  ':' :: ' ' :: (t1 ++ ':' :: (t2 ++ ';' :: cmd))

/-! ### Registry lemmas and claims -/

lemma find?_map_update (m : List (String × String)) (k v : String) :
    (m.map (fun p => if p.1 == k then (k, v) else p)).find? (fun p => p.1 == k) =
      (m.find? (fun p => p.1 == k)).map (fun _ => (k, v)) := by
  induction m with
  | nil => rfl
  | cons p rest ih =>
    rw [List.map_cons]
    by_cases h : (p.1 == k) = true
    · have hr : List.find? (fun q => q.1 == k) (p :: rest) = some p :=
        List.find?_cons_of_pos rest h
      rw [if_pos h, List.find?_cons_of_pos _ (by simp), hr]
      rfl
    · have hr : List.find? (fun q => q.1 == k) (p :: rest) =
          List.find? (fun q => q.1 == k) rest :=
        List.find?_cons_of_neg rest h
      have hl : List.find? (fun q => q.1 == k)
            (p :: rest.map (fun q => if q.1 == k then (k, v) else q)) =
          List.find? (fun q => q.1 == k)
            (rest.map (fun q => if q.1 == k then (k, v) else q)) :=
        List.find?_cons_of_neg _ h
      rw [if_neg h, hl, hr, ih]

lemma dictGet_dictSet (m : List (String × String)) (k v : String) :
    dictGet (dictSet m k v) k = some v := by
  unfold dictGet dictSet
  by_cases h : dictHas m k
  · rw [if_pos h, find?_map_update]
    have hs : (m.find? (fun p => p.1 == k)).isSome := by
      unfold dictHas at h
      rw [List.any_eq_true] at h
      obtain ⟨p, hp, hpk⟩ := h
      exact List.find?_isSome.mpr ⟨p, hp, hpk⟩
    obtain ⟨p, hp⟩ := Option.isSome_iff_exists.mp hs
    rw [hp]
    rfl
  · rw [if_neg h, List.find?_append]
    have hn : m.find? (fun p => p.1 == k) = none := by
      rw [List.find?_eq_none]
      intro x hx hxk
      unfold dictHas at h
      exact h (List.any_eq_true.mpr ⟨x, hx, hxk⟩)
    rw [hn]
    simp [List.find?_cons]

/-- Claim C5: after a successful `create(name, path, overwrite)`, resolving
`name` returns the expanded form of `path`: the registry stores the
`expanduser`-expanded path and `get_group_path` reads it back. -/
theorem C5_create_then_resolve (expandUser : String → String) (name path : String)
    (overwrite : Bool) (st : FsState)
    (h : (create_group expandUser name path overwrite st).1 = true) :
    get_group_path name (create_group expandUser name path overwrite st).2 =
      some (expandUser path) := by
  unfold create_group at h ⊢
  by_cases hex : dictHas (load_groups st) name && !overwrite
  · rw [if_pos hex] at h
    exact absurd h (by simp)
  · rw [if_neg hex] at h ⊢
    unfold save_groups at h ⊢
    by_cases hw : st.writable
    · rw [if_pos hw]
      unfold get_group_path load_groups
      exact dictGet_dictSet _ _ _
    · rw [if_neg hw] at h
      exact absurd h (by simp)

/-- Witness for C5 at a concrete input. -/
theorem C5_create_then_resolve_witness :
    ((create_group (fun _ => "/home/u/x.md") "notes" "~/x.md" false
        ⟨RegFile.absent, true⟩).1 = true) ∧
    get_group_path "notes" (create_group (fun _ => "/home/u/x.md") "notes" "~/x.md" false
        ⟨RegFile.absent, true⟩).2 = some "/home/u/x.md" :=
  ⟨rfl, C5_create_then_resolve (fun _ => "/home/u/x.md") "notes" "~/x.md" false
      ⟨RegFile.absent, true⟩ rfl⟩

/-- Claim C6: `create` with an existing name and `overwrite = false`
returns `false` and leaves the whole registry state unchanged. -/
theorem C6_create_no_overwrite (expandUser : String → String) (name path : String)
    (st : FsState) (h : dictHas (load_groups st) name = true) :
    create_group expandUser name path false st = (false, st) := by
  unfold create_group
  rw [if_pos (by rw [h]; rfl)]

/-- Witness for C6 at a concrete input. -/
theorem C6_create_no_overwrite_witness :
    (dictHas (load_groups ⟨RegFile.stored [("a", "/p/a.md")], true⟩) "a" = true) ∧
    create_group (fun s => s) "a" "/q/b.md" false ⟨RegFile.stored [("a", "/p/a.md")], true⟩ =
      (false, ⟨RegFile.stored [("a", "/p/a.md")], true⟩) :=
  ⟨rfl, C6_create_no_overwrite (fun s => s) "a" "/q/b.md"
      ⟨RegFile.stored [("a", "/p/a.md")], true⟩ rfl⟩

/-- Claim C7: a successful `save` followed by `load` reproduces the same
name-to-path mapping. -/
theorem C7_save_load_roundtrip (m : List (String × String)) (st : FsState)
    (h : (save_groups m st).1 = true) :
    load_groups (save_groups m st).2 = m := by
  unfold save_groups at h ⊢
  by_cases hw : st.writable
  · rw [if_pos hw]
    rfl
  · rw [if_neg hw] at h
    exact absurd h (by simp)

/-- Witness for C7 at a concrete input. -/
theorem C7_save_load_roundtrip_witness :
    ((save_groups [("g", "/p/g.md"), ("h", "/p/h.md")] ⟨RegFile.absent, true⟩).1 = true) ∧
    load_groups (save_groups [("g", "/p/g.md"), ("h", "/p/h.md")] ⟨RegFile.absent, true⟩).2 =
      [("g", "/p/g.md"), ("h", "/p/h.md")] :=
  ⟨rfl, C7_save_load_roundtrip [("g", "/p/g.md"), ("h", "/p/h.md")] ⟨RegFile.absent, true⟩ rfl⟩

/-- Claim C9: `load_groups` is a total function of the registry state, and
on an absent or unreadable/unparsable registry file it returns the empty
mapping rather than an error. -/
theorem C9_load_degrades (st : FsState)
    (h : st.file = RegFile.absent ∨ st.file = RegFile.corrupt) :
    load_groups st = [] := by
  unfold load_groups
  rcases h with h | h <;> rw [h]

/-- Witness for C9 at a concrete input. -/
theorem C9_load_degrades_witness :
    ((⟨RegFile.corrupt, true⟩ : FsState).file = RegFile.absent ∨
      (⟨RegFile.corrupt, true⟩ : FsState).file = RegFile.corrupt) ∧
    load_groups ⟨RegFile.corrupt, true⟩ = [] :=
  ⟨Or.inr rfl, C9_load_degrades ⟨RegFile.corrupt, true⟩ (Or.inr rfl)⟩

/-! ### Entry builder claim -/

lemma pyJoin_cons_append_cons (sep : List Char) (x : List Char) (xs : List (List Char))
    (y : List Char) (ys : List (List Char)) :
    pyJoin sep (x :: (xs ++ y :: ys)) =
      pyJoin sep (x :: xs) ++ sep ++ pyJoin sep (y :: ys) := by
  induction xs generalizing x with
  | nil => rfl
  | cons x2 xs2 ih =>
    have := ih x2
    simp only [pyJoin, List.cons_append, List.append_eq] at this ⊢
    rw [this]
    simp [List.append_assoc]

/-- Claim C8: for every title, command(s) and description — the empty ones
included — both builders end with a blank line, the description on a line
of its own (an empty description is an empty line, not an omitted
section), a blank line, and the `---` separator followed by exactly one
trailing newline. -/
theorem C8_entry_terminator (ts cwd title cmd desc : List Char)
    (cmds : List (List Char)) :
    (∃ s, build_entry ts cwd title cmd desc =
      s ++ '\n' :: '\n' :: (desc ++ '\n' :: '\n' :: '-' :: '-' :: '-' :: '\n' :: [])) ∧
    (∃ s, build_session_entry ts cwd title cmds desc =
      s ++ '\n' :: '\n' :: (desc ++ '\n' :: '\n' :: '-' :: '-' :: '-' :: '\n' :: [])) := by
  constructor
  · refine ⟨"# ".toList ++ title ++ '\n' :: '\n' ::
      ("*Saved: ".toList ++ ts ++ " — cwd: ".toList ++ cwd ++ "*".toList) ++ '\n' :: '\n' ::
      "```bash".toList ++ '\n' :: (cmd ++ '\n' :: "```".toList), ?_⟩
    simp only [build_entry, pyJoin,
      show "\n".toList = ['\n'] from rfl, show "---".toList = ['-', '-', '-'] from rfl,
      List.append_assoc, List.cons_append, List.nil_append, List.singleton_append,
      List.append_nil]
  · rcases cmds with _ | ⟨c, cs⟩
    · refine ⟨"# ".toList ++ title ++ '\n' :: '\n' ::
        ("*Saved: ".toList ++ ts ++ " — cwd: ".toList ++ cwd ++ "*".toList) ++ '\n' :: '\n' ::
        "Session commands:".toList ++ '\n' :: '\n' ::
        "```bash".toList ++ '\n' :: "```".toList, ?_⟩
      simp only [build_session_entry, pyJoin,
        show "\n".toList = ['\n'] from rfl, show "---".toList = ['-', '-', '-'] from rfl,
        List.append_assoc, List.cons_append, List.nil_append, List.singleton_append,
        List.append_nil]
    · refine ⟨"# ".toList ++ title ++ '\n' :: '\n' ::
        ("*Saved: ".toList ++ ts ++ " — cwd: ".toList ++ cwd ++ "*".toList) ++ '\n' :: '\n' ::
        "Session commands:".toList ++ '\n' :: '\n' ::
        "```bash".toList ++ '\n' ::
        (pyJoin ['\n'] (c :: cs) ++ '\n' :: "```".toList), ?_⟩
      have key := pyJoin_cons_append_cons "\n".toList c cs
        "```".toList [[], desc, [], "---".toList]
      simp only [build_session_entry, List.cons_append, List.nil_append]
      simp only [pyJoin, List.append_eq]
      rw [pyJoin_cons_append_cons]
      simp only [pyJoin,
        show "\n".toList = ['\n'] from rfl, show "---".toList = ['-', '-', '-'] from rfl,
        List.append_assoc, List.cons_append, List.nil_append, List.singleton_append,
        List.append_nil]

/-! ### Substring and whitespace lemmas -/

lemma containsSub_iff (t s : List Char) : containsSub t s = true ↔ t <:+: s := by
  induction s with
  | nil =>
    simp only [containsSub, List.isEmpty_iff]
    constructor
    · intro h
      rw [h]
    · intro h
      exact List.eq_nil_of_infix_nil h
  | cons c rest ih =>
    simp only [containsSub, Bool.or_eq_true, ih, List.infix_cons_iff,
      List.isPrefixOf_iff_prefix]

lemma wsDropLeft (c : Char) (t s w : List Char) (hc : c.isWhitespace = false)
    (hw : ∀ x ∈ w, x.isWhitespace = true) (h : (c :: t) <:+: (w ++ s)) :
    (c :: t) <:+: s := by
  induction w with
  | nil => simpa using h
  | cons x xs ih =>
    rw [List.cons_append, List.infix_cons_iff] at h
    rcases h with h | h
    · have hcx : c = x := ( List.cons_prefix_cons.mp h).1
      have hx := hw x (List.mem_cons_self x xs)
      rw [← hcx, hc] at hx
      exact absurd hx (by simp)
    · exact ih (fun y hy => hw y (List.mem_cons_of_mem x hy)) h

lemma wsDropRight (t s w : List Char) (ht : t ≠ [])
    (hlast : ∀ c, t.getLast? = some c → c.isWhitespace = false)
    (hw : ∀ x ∈ w, x.isWhitespace = true) (h : t <:+: (s ++ w)) :
    t <:+: s := by
  have h' := List.reverse_infix.mpr h
  rw [List.reverse_append] at h'
  cases hrev : t.reverse with
  | nil => exact absurd (List.reverse_eq_nil_iff.mp hrev) ht
  | cons c t' =>
    have hc : t.getLast? = some c := by
      rw [← List.head?_reverse, hrev]
      rfl
    rw [hrev] at h'
    have h2 := wsDropLeft c t' s.reverse w.reverse (hlast c hc)
      (fun x hx => hw x (List.mem_reverse.mp hx)) h'
    have h3 : t.reverse <:+: s.reverse := by
      rw [hrev]
      exact h2
    exact List.reverse_infix.mp h3

lemma pyStrip_decomp (r : List Char) :
    ∃ w₁ w₂, (∀ x ∈ w₁, x.isWhitespace = true) ∧ (∀ x ∈ w₂, x.isWhitespace = true) ∧
      r = w₁ ++ (pyStrip r ++ w₂) := by
  refine ⟨r.takeWhile Char.isWhitespace,
    ((r.dropWhile Char.isWhitespace).reverse.takeWhile Char.isWhitespace).reverse,
    fun x hx => List.mem_takeWhile_imp hx,
    fun x hx => List.mem_takeWhile_imp (List.mem_reverse.mp hx), ?_⟩
  unfold pyStrip
  conv_lhs => rw [← List.takeWhile_append_dropWhile Char.isWhitespace r]
  rw [List.append_cancel_left_eq]
  conv_lhs => rw [← List.reverse_reverse (r.dropWhile Char.isWhitespace),
    ← List.takeWhile_append_dropWhile Char.isWhitespace
      (r.dropWhile Char.isWhitespace).reverse]
  rw [List.reverse_append]

lemma infix_pyStrip (t r : List Char) (h1 : tokenOk t = true) (h : t <:+: r) :
    t <:+: pyStrip r := by
  obtain ⟨w₁, w₂, hw₁, hw₂, hr⟩ := pyStrip_decomp r
  simp only [tokenOk, Bool.and_eq_true, Bool.not_eq_true'] at h1
  obtain ⟨⟨hne, hhead⟩, hlast⟩ := h1
  cases t with
  | nil => simp at hne
  | cons c t' =>
    have hc : c.isWhitespace = false := by simpa using hhead
    rw [hr] at h
    have h2 := wsDropLeft c t' (pyStrip r ++ w₂) w₁ hc hw₁ h
    refine wsDropRight (c :: t') (pyStrip r) w₂ (by simp) ?_ hw₂ h2
    intro d hd
    rw [hd] at hlast
    simpa using hlast

/-! ### Soundness of the self-invocation filter in both extractors -/

lemma looks_eq (inv : Invocation) (cmd : List Char) :
    looks_like_invocation inv cmd = _looks_like_invocation inv cmd := by
  unfold looks_like_invocation _looks_like_invocation
  cases cmd with
  | nil => simp [containsSub, pyStrip]
  | cons c cs => simp

lemma token_not_in (t r : List Char) (ht : tokenOk t = true)
    (hc : (!t.isEmpty && containsSub t (pyStrip r)) = false) :
    containsSub t r = false := by
  cases hcr : containsSub t r with
  | false => rfl
  | true =>
    exfalso
    have hinf : t <:+: pyStrip r := infix_pyStrip t r ht ((containsSub_iff t r).mp hcr)
    have hsub : containsSub t (pyStrip r) = true := (containsSub_iff _ _).mpr hinf
    have hne : t.isEmpty = false := by
      simp only [tokenOk, Bool.and_eq_true, Bool.not_eq_true'] at ht
      exact ht.1.1
    rw [hsub, hne] at hc
    simp at hc

lemma mentions_false_of_filter (inv : Invocation) (r : List Char)
    (h1 : tokenOk inv.invoked = true) (h2 : tokenOk inv.basename = true)
    (h3 : tokenOk inv.stem = true)
    (hf : _looks_like_invocation inv r = false) :
    mentionsInvocation inv r = false := by
  unfold _looks_like_invocation at hf
  simp only [Bool.or_eq_false_iff] at hf
  obtain ⟨⟨hf1, hf2⟩, hf3⟩ := hf
  unfold mentionsInvocation
  rw [token_not_in _ _ h1 hf1, token_not_in _ _ h2 hf2, token_not_in _ _ h3 hf3]
  rfl

lemma scanGLC_sound (inv : Invocation) (lines : List (List Char)) (r : List Char)
    (h : scanGLC inv lines = some r) : looks_like_invocation inv r = false := by
  induction lines with
  | nil => simp [scanGLC] at h
  | cons line rest ih =>
    rw [scanGLC] at h
    by_cases h0 : (pyStrip line).isEmpty
    · rw [if_pos h0] at h
      exact ih h
    · rw [if_neg h0] at h
      by_cases hl : (pyStrip (stripTs (pyStrip line))).length ≤ 1
      · rw [if_pos hl] at h
        exact ih h
      · rw [if_neg hl] at h
        by_cases hi : looks_like_invocation inv (stripTs (pyStrip line)) = false
        · rw [if_pos hi] at h
          cases h
          exact hi
        · rw [if_neg hi] at h
          exact ih h

lemma goGLC_sound (inv : Invocation) (fs : FileSys) (cands : List (List Char))
    (r : List Char) (h : goGLC inv fs cands = some r) :
    looks_like_invocation inv r = false := by
  induction cands with
  | nil => simp [goGLC] at h
  | cons p ps ih =>
    rw [goGLC] at h
    split at h
    · exact ih h
    · split at h
      · rename_i c hs
        cases h
        exact scanGLC_sound inv _ _ hs
      · exact ih h

lemma collectCmds_mem (inv : Invocation) (n : Int) (lines : List (List Char))
    (acc : List (List Char)) (x : List Char) (hx : x ∈ collectCmds inv n acc lines) :
    x ∈ acc ∨ _looks_like_invocation inv x = false := by
  induction lines generalizing acc with
  | nil => exact Or.inl (by simpa [collectCmds] using hx)
  | cons line rest ih =>
    rw [collectCmds] at hx
    by_cases h0 : (pyStrip (stripTs line)).isEmpty
    · rw [if_pos h0] at hx
      exact ih acc hx
    · rw [if_neg h0] at hx
      by_cases h1 : _looks_like_invocation inv (pyStrip (stripTs line)) = true
      · rw [if_pos h1] at hx
        exact ih acc hx
      · rw [if_neg h1] at hx
        have hlf : _looks_like_invocation inv (pyStrip (stripTs line)) = false :=
          Bool.eq_false_iff.mpr h1
        by_cases h2 : (pyStrip (stripTs line)).length ≤ 1
        · rw [if_pos h2] at hx
          exact ih acc hx
        · rw [if_neg h2] at hx
          by_cases h3 : ((acc.length : Int) + 1) ≥ n
          · rw [if_pos h3] at hx
            rcases List.mem_append.mp hx with hA | hB
            · exact Or.inl hA
            · have hxl : x = pyStrip (stripTs line) := by simpa using hB
              exact Or.inr (hxl ▸ hlf)
          · rw [if_neg h3] at hx
            rcases ih (acc ++ [pyStrip (stripTs line)]) hx with hA | hB
            · rcases List.mem_append.mp hA with hA' | hA'
              · exact Or.inl hA'
              · have hxl : x = pyStrip (stripTs line) := by simpa using hA'
                exact Or.inr (hxl ▸ hlf)
            · exact Or.inr hB

lemma goRHL_mem (inv : Invocation) (fs : FileSys) (n : Int) (cands : List (List Char))
    (x : List Char) (hx : x ∈ goRHL inv fs n cands) :
    _looks_like_invocation inv x = false := by
  induction cands with
  | nil => simp [goRHL] at hx
  | cons p ps ih =>
    rw [goRHL] at hx
    split at hx
    · exact ih hx
    · split at hx
      · exact ih hx
      · rw [List.mem_reverse] at hx
        rcases collectCmds_mem inv n _ [] x hx with h | h
        · simp at h
        · exact h

/-- Claim C1: a history line that contains, as a substring, the full
reconstructed argument vector, the program's file basename, or its stem —
each a non-empty token with no edge whitespace, as produced by a real
`sys.argv` — is never returned, by `get_last_command` or by
`read_history_last`, as an extracted command. -/
theorem C1_self_invocation_filter (inv : Invocation) (e : Env) (fs : FileSys) (n : Int)
    (L : List Char) (h1 : tokenOk inv.invoked = true) (h2 : tokenOk inv.basename = true)
    (h3 : tokenOk inv.stem = true) (hL : mentionsInvocation inv L = true) :
    get_last_command inv e fs ≠ some L ∧ L ∉ read_history_last inv e fs n := by
  constructor
  · intro h
    have hlf := goGLC_sound inv fs (candidatesGLC e) L h
    rw [looks_eq] at hlf
    have hm := mentions_false_of_filter inv L h1 h2 h3 hlf
    rw [hL] at hm
    exact Bool.noConfusion hm
  · intro h
    have hlf := goRHL_mem inv fs n (candidatesRHL e) L h
    have hm := mentions_false_of_filter inv L h1 h2 h3 hlf
    rw [hL] at hm
    exact Bool.noConfusion hm

/-- Witness for C1 at a concrete invocation, environment, filesystem and
history line. -/
theorem C1_self_invocation_filter_witness :
    (tokenOk "./tnm.py -g notes".toList = true) ∧
    (tokenOk "tnm.py".toList = true) ∧
    (tokenOk "tnm".toList = true) ∧
    (mentionsInvocation ⟨"./tnm.py -g notes".toList, "tnm.py".toList, "tnm".toList⟩
      "./tnm.py -g notes".toList = true) ∧
    (get_last_command ⟨"./tnm.py -g notes".toList, "tnm.py".toList, "tnm".toList⟩
        ⟨"/bin/bash".toList, none, "/h/.zsh_history".toList, "/h/.bash_history".toList⟩
        (fun _ => some ["./tnm.py -g notes".toList]) ≠
      some ("./tnm.py -g notes".toList) ∧
     "./tnm.py -g notes".toList ∉
      read_history_last ⟨"./tnm.py -g notes".toList, "tnm.py".toList, "tnm".toList⟩
        ⟨"/bin/bash".toList, none, "/h/.zsh_history".toList, "/h/.bash_history".toList⟩
        (fun _ => some ["./tnm.py -g notes".toList]) 5) :=
  ⟨by decide, by decide, by decide, by decide,
    C1_self_invocation_filter ⟨"./tnm.py -g notes".toList, "tnm.py".toList, "tnm".toList⟩
      ⟨"/bin/bash".toList, none, "/h/.zsh_history".toList, "/h/.bash_history".toList⟩
      (fun _ => some ["./tnm.py -g notes".toList]) 5 "./tnm.py -g notes".toList
      (by decide) (by decide) (by decide) (by decide)⟩

/-! ### Last-N import: refinement against the spec-side description -/

lemma processLine_skip (inv : Invocation) (line : List Char)
    (h : (pyStrip (stripTs line)).isEmpty = true ∨
      _looks_like_invocation inv (pyStrip (stripTs line)) = true ∨
      (pyStrip (stripTs line)).length ≤ 1) :
    processLine inv line = none := by
  unfold processLine
  rcases h with h | h | h
  · rw [if_pos h]
  · by_cases h0 : (pyStrip (stripTs line)).isEmpty
    · rw [if_pos h0]
    · rw [if_neg h0, if_pos h]
  · by_cases h0 : (pyStrip (stripTs line)).isEmpty
    · rw [if_pos h0]
    · rw [if_neg h0]
      by_cases h1 : _looks_like_invocation inv (pyStrip (stripTs line)) = true
      · rw [if_pos h1]
      · rw [if_neg h1, if_pos h]

lemma processLine_accept (inv : Invocation) (line : List Char)
    (h0 : ¬(pyStrip (stripTs line)).isEmpty = true)
    (h1 : ¬_looks_like_invocation inv (pyStrip (stripTs line)) = true)
    (h2 : ¬(pyStrip (stripTs line)).length ≤ 1) :
    processLine inv line = some (pyStrip (stripTs line)) := by
  unfold processLine
  rw [if_neg h0, if_neg h1, if_neg h2]

lemma collectCmds_eq_take (inv : Invocation) (n : Int) (lines acc : List (List Char))
    (h : (acc.length : Int) < n) :
    collectCmds inv n acc lines =
      acc ++ (lines.filterMap (processLine inv)).take (n.toNat - acc.length) := by
  induction lines generalizing acc with
  | nil => simp [collectCmds]
  | cons line rest ih =>
    rw [collectCmds, List.filterMap_cons]
    by_cases h0 : (pyStrip (stripTs line)).isEmpty
    · rw [if_pos h0, processLine_skip inv line (Or.inl h0)]
      exact ih acc h
    · rw [if_neg h0]
      by_cases h1 : _looks_like_invocation inv (pyStrip (stripTs line)) = true
      · rw [if_pos h1, processLine_skip inv line (Or.inr (Or.inl h1))]
        exact ih acc h
      · rw [if_neg h1]
        by_cases h2 : (pyStrip (stripTs line)).length ≤ 1
        · rw [if_pos h2, processLine_skip inv line (Or.inr (Or.inr h2))]
          exact ih acc h
        · rw [if_neg h2, processLine_accept inv line h0 h1 h2]
          by_cases h3 : ((acc.length : Int) + 1) ≥ n
          · rw [if_pos h3]
            have hk : n.toNat - acc.length = 0 + 1 := by omega
            rw [hk, List.take_succ_cons, List.take_zero]
          · rw [if_neg h3]
            rw [ih (acc ++ [pyStrip (stripTs line)]) (by simp; omega)]
            have hk : n.toNat - acc.length = (n.toNat - acc.length - 1) + 1 := by omega
            rw [hk, List.take_succ_cons]
            have hk2 : n.toNat - (acc ++ [pyStrip (stripTs line)]).length =
                n.toNat - acc.length - 1 := by
              simp
              omega
            rw [hk2]
            simp [List.append_assoc]

lemma goRHL_eq_specGo (inv : Invocation) (fs : FileSys) (n : Int) (hn : 1 ≤ n)
    (cands : List (List Char)) :
    goRHL inv fs n cands = specGoRHL inv fs n.toNat cands := by
  induction cands with
  | nil => rfl
  | cons p ps ih =>
    cases hf : fs p with
    | none =>
      simp only [goRHL, specGoRHL, hf]
      exact ih
    | some raw =>
      simp only [goRHL, specGoRHL, hf]
      have hcoll : collectCmds inv n []
          (((raw.map pyStrip).filter (fun l => !l.isEmpty)).reverse) =
          ((acceptedCmds inv raw).reverse.take n.toNat) := by
        rw [collectCmds_eq_take inv n _ [] (by simpa using hn)]
        rw [List.filterMap_reverse]
        rfl
      rw [hcoll]
      have hemp : ((acceptedCmds inv raw).reverse.take n.toNat).isEmpty =
          (acceptedCmds inv raw).isEmpty := by
        rcases hA : acceptedCmds inv raw with _ | ⟨a, as⟩
        · simp
        · have h1 : (a :: as).reverse ≠ [] := by simp
          rcases hrev : (a :: as).reverse with _ | ⟨b, bs⟩
          · exact absurd hrev h1
          · have hk : n.toNat = (n.toNat - 1) + 1 := by omega
            rw [hk, List.take_succ_cons]
            rfl
      rw [hemp]
      by_cases hA : (acceptedCmds inv raw).isEmpty
      · rw [if_pos hA, if_pos hA]
        exact ih
      · rw [if_neg hA, if_neg hA]

/-- Claim C2: for `n ≥ 1`, `read_history_last n` behaves exactly as the
spec describes last-N import: from the first candidate file that yields
any accepted line it returns the last up-to-`n` accepted commands in
chronological (oldest-first) order, never aggregating across files, and
returns the empty sequence when no candidate yields an accepted line.  In
particular a file holding accepted commands `[a, b, c, d]` with `n = 3`
gives `[b, c, d]` (see the witness). -/
theorem C2_session_import (inv : Invocation) (e : Env) (fs : FileSys) (n : Int)
    (hn : 1 ≤ n) :
    read_history_last inv e fs n = read_history_last_spec inv e fs n :=
  goRHL_eq_specGo inv fs n hn (candidatesRHL e)

/-- Witness for C2: the concrete `[a, b, c, d]`, `n = 3` instance of the
claim (commands written `aa`..`dd` so that none is filtered by the
single-character rule). -/
theorem C2_session_import_witness :
    ((1 : Int) ≤ 3) ∧
    (read_history_last ⟨"./tnm.py -g notes".toList, "tnm.py".toList, "tnm".toList⟩
        ⟨"/bin/bash".toList, none, "/h/.zsh_history".toList, "/h/.bash_history".toList⟩
        (fun p => if p = "/h/.bash_history".toList then
          some ["aa\n".toList, "bb\n".toList, "cc\n".toList, "dd\n".toList] else none) 3 =
      read_history_last_spec ⟨"./tnm.py -g notes".toList, "tnm.py".toList, "tnm".toList⟩
        ⟨"/bin/bash".toList, none, "/h/.zsh_history".toList, "/h/.bash_history".toList⟩
        (fun p => if p = "/h/.bash_history".toList then
          some ["aa\n".toList, "bb\n".toList, "cc\n".toList, "dd\n".toList] else none) 3) ∧
    (read_history_last ⟨"./tnm.py -g notes".toList, "tnm.py".toList, "tnm".toList⟩
        ⟨"/bin/bash".toList, none, "/h/.zsh_history".toList, "/h/.bash_history".toList⟩
        (fun p => if p = "/h/.bash_history".toList then
          some ["aa\n".toList, "bb\n".toList, "cc\n".toList, "dd\n".toList] else none) 3 =
      ["bb".toList, "cc".toList, "dd".toList]) :=
  ⟨by decide,
    C2_session_import ⟨"./tnm.py -g notes".toList, "tnm.py".toList, "tnm".toList⟩
      ⟨"/bin/bash".toList, none, "/h/.zsh_history".toList, "/h/.bash_history".toList⟩
      (fun p => if p = "/h/.bash_history".toList then
        some ["aa\n".toList, "bb\n".toList, "cc\n".toList, "dd\n".toList] else none) 3
      (by decide),
    by decide⟩

lemma collectCmds_nonpos (inv : Invocation) (n : Int) (lines : List (List Char))
    (hn : n ≤ 0) :
    collectCmds inv n [] lines = (lines.filterMap (processLine inv)).take 1 := by
  induction lines with
  | nil => simp [collectCmds]
  | cons line rest ih =>
    rw [collectCmds, List.filterMap_cons]
    by_cases h0 : (pyStrip (stripTs line)).isEmpty
    · rw [if_pos h0, processLine_skip inv line (Or.inl h0)]
      exact ih
    · rw [if_neg h0]
      by_cases h1 : _looks_like_invocation inv (pyStrip (stripTs line)) = true
      · rw [if_pos h1, processLine_skip inv line (Or.inr (Or.inl h1))]
        exact ih
      · rw [if_neg h1]
        by_cases h2 : (pyStrip (stripTs line)).length ≤ 1
        · rw [if_pos h2, processLine_skip inv line (Or.inr (Or.inr h2))]
          exact ih
        · rw [if_neg h2, processLine_accept inv line h0 h1 h2]
          rw [if_pos (by omega : (((([] : List (List Char))).length : Int) + 1) ≥ n)]
          rfl

lemma goRHL_nonpos (inv : Invocation) (fs : FileSys) (n : Int) (c : List Char)
    (hn : n ≤ 0) (cands : List (List Char))
    (hc : lastAcceptedFirstFile inv fs cands = some c) :
    goRHL inv fs n cands = [c] := by
  induction cands with
  | nil => simp [lastAcceptedFirstFile] at hc
  | cons p ps ih =>
    cases hf : fs p with
    | none =>
      simp only [lastAcceptedFirstFile, hf] at hc
      simp only [goRHL, hf]
      exact ih hc
    | some raw =>
      simp only [lastAcceptedFirstFile, hf] at hc
      simp only [goRHL, hf]
      have hcoll : collectCmds inv n []
          (((raw.map pyStrip).filter (fun l => !l.isEmpty)).reverse) =
          ((acceptedCmds inv raw).reverse.take 1) := by
        rw [collectCmds_nonpos inv n _ hn, List.filterMap_reverse]
        rfl
      rw [hcoll]
      by_cases hA : (acceptedCmds inv raw).isEmpty
      · rw [if_pos hA] at hc
        have hAe : acceptedCmds inv raw = [] := List.isEmpty_iff.mp hA
        rw [if_pos (by rw [hAe]; rfl)]
        exact ih hc
      · rw [if_neg hA] at hc
        have hAe : acceptedCmds inv raw ≠ [] := fun h => by
          rw [h] at hA
          exact hA rfl
        rcases hrev : (acceptedCmds inv raw).reverse with _ | ⟨b, bs⟩
        · exact absurd (List.reverse_eq_nil_iff.mp hrev) hAe
        · have hb : b = c := by
            have hh := List.head?_reverse (acceptedCmds inv raw)
            rw [hrev, hc] at hh
            exact Option.some.inj hh
          rw [show (1 : Nat) = 0 + 1 from rfl, List.take_succ_cons, List.take_zero, hb]
          rw [if_neg (by simp)]
          rfl

/-- Claim C10: for `n ≤ 0`, when the first usable candidate history file
yields at least one accepted line (its most recent accepted command being
`c`), `read_history_last n` returns the one-element list `[c]` rather than
the empty list: the zero/negative request is only neutralised by `main`'s
`last_n > 0` guard, not by the function itself. -/
theorem C10_nonpositive_returns_one (inv : Invocation) (e : Env) (fs : FileSys)
    (n : Int) (c : List Char) (hn : n ≤ 0)
    (hc : lastAcceptedFirstFile inv fs (candidatesRHL e) = some c) :
    read_history_last inv e fs n = [c] :=
  goRHL_nonpos inv fs n c hn (candidatesRHL e) hc

/-- Witness for C10 at a concrete input: `n = 0` still returns the most
recent accepted command. -/
theorem C10_nonpositive_returns_one_witness :
    ((0 : Int) ≤ 0) ∧
    (lastAcceptedFirstFile ⟨"./tnm.py -g notes".toList, "tnm.py".toList, "tnm".toList⟩
        (fun p => if p = "/h/.bash_history".toList then
          some ["ls -la\n".toList, "git st\n".toList] else none)
        (candidatesRHL
          ⟨"/bin/bash".toList, none, "/h/.zsh_history".toList, "/h/.bash_history".toList⟩) =
      some ("git st".toList)) ∧
    (read_history_last ⟨"./tnm.py -g notes".toList, "tnm.py".toList, "tnm".toList⟩
        ⟨"/bin/bash".toList, none, "/h/.zsh_history".toList, "/h/.bash_history".toList⟩
        (fun p => if p = "/h/.bash_history".toList then
          some ["ls -la\n".toList, "git st\n".toList] else none) 0 =
      ["git st".toList]) :=
  ⟨by decide, by decide,
    C10_nonpositive_returns_one ⟨"./tnm.py -g notes".toList, "tnm.py".toList, "tnm".toList⟩
      ⟨"/bin/bash".toList, none, "/h/.zsh_history".toList, "/h/.bash_history".toList⟩
      (fun p => if p = "/h/.bash_history".toList then
        some ["ls -la\n".toList, "git st\n".toList] else none) 0 ("git st".toList)
      (by decide) (by decide)⟩

/-! ### Timestamp-prefix stripping -/

lemma pyStrip_eq_self (l : List Char)
    (hh : l.head?.any Char.isWhitespace = false)
    (hl : l.getLast?.any Char.isWhitespace = false) : pyStrip l = l := by
  unfold pyStrip
  have h1 : l.dropWhile Char.isWhitespace = l := by
    cases l with
    | nil => rfl
    | cons c cs =>
      simp only [List.head?, Option.any] at hh
      simp [List.dropWhile_cons, hh]
  have h2 : l.reverse.dropWhile Char.isWhitespace = l.reverse := by
    cases hr : l.reverse with
    | nil => rfl
    | cons c cs =>
      have hc : l.getLast? = some c := by
        rw [← List.head?_reverse, hr]
        rfl
      rw [hc] at hl
      simp only [Option.any] at hl
      simp [List.dropWhile_cons, hl]
  rw [h1, h2, List.reverse_reverse]

lemma afterSemi_append (pre cmd : List Char) (hpre : ';' ∉ pre) :
    afterSemi (pre ++ ';' :: cmd) = cmd := by
  induction pre with
  | nil => simp [afterSemi]
  | cons x xs ih =>
    have hx : ¬(x = ';') := fun h => hpre (h ▸ List.mem_cons_self x xs)
    rw [List.cons_append, afterSemi, if_neg hx]
    exact ih (fun h => hpre (List.mem_cons_of_mem x h))

lemma tsLine_split (t1 t2 cmd : List Char) :
    tsLine t1 t2 cmd = (':' :: ' ' :: (t1 ++ ':' :: t2)) ++ ';' :: cmd := by
  simp [tsLine, List.append_assoc]

lemma digits_no_semi (t : List Char) (h : ∀ c ∈ t, c.isDigit = true) : ';' ∉ t := by
  intro hm
  have := h ';' hm
  exact absurd this (by decide)

lemma candidatesGLC_ne_nil (e : Env) : candidatesGLC e ≠ [] := by
  unfold candidatesGLC
  intro h
  rcases List.append_eq_nil.mp h with ⟨_, h2⟩
  by_cases hz : "zsh".toList.isSuffixOf e.shell
  · rw [if_pos hz] at h2
    exact List.noConfusion h2
  · rw [if_neg hz] at h2
    exact List.noConfusion h2

lemma candidatesRHL_ne_nil (e : Env) : candidatesRHL e ≠ [] := by
  unfold candidatesRHL
  intro h
  rcases List.append_eq_nil.mp h with ⟨_, h2⟩
  exact List.noConfusion h2

lemma goGLC_const (inv : Invocation) (lines : List (List Char)) (r : List Char)
    (hscan : scanGLC inv lines.reverse = some r) (p : List Char) (ps : List (List Char)) :
    goGLC inv (fun _ => some lines) (p :: ps) = some r := by
  simp only [goGLC, hscan]

lemma goRHL_const (inv : Invocation) (lines : List (List Char)) (n : Int)
    (res : List (List Char))
    (hcoll : collectCmds inv n []
      (((lines.map pyStrip).filter (fun l => !l.isEmpty)).reverse) = res)
    (hne : res.isEmpty = false) (p : List Char) (ps : List (List Char)) :
    goRHL inv (fun _ => some lines) n (p :: ps) = res.reverse := by
  simp only [goRHL, hcoll, hne]
  simp

/-- Claim C4: a history line of the timestamp-prefixed form
`: <digits>:<digits>;<command>` has the prefix up to the first `;` stripped
and the command part returned, by both extractors; the instance
`: 1690000000:0;ls -la` yielding `ls -la` is the witness below.  The
command part is assumed acceptable: at least two characters, no edge
whitespace, and not a self-invocation. -/
theorem C4_timestamp_strip (inv : Invocation) (e : Env) (t1 t2 cmd : List Char)
    (h1 : ∀ c ∈ t1, c.isDigit = true) (h2 : ∀ c ∈ t2, c.isDigit = true)
    (hh : cmd.head?.any Char.isWhitespace = false)
    (hl : cmd.getLast?.any Char.isWhitespace = false)
    (hlen : 2 ≤ cmd.length)
    (hinv : _looks_like_invocation inv cmd = false) :
    get_last_command inv e (fun _ => some [tsLine t1 t2 cmd]) = some cmd ∧
    read_history_last inv e (fun _ => some [tsLine t1 t2 cmd]) 1 = [cmd] := by
  have hcmdne : cmd ≠ [] := by
    intro h
    rw [h] at hlen
    simp at hlen
  have hnosemi : ';' ∉ (':' :: ' ' :: (t1 ++ ':' :: t2)) := by
    intro h
    rcases List.mem_cons.mp h with h | h
    · exact absurd h (by decide)
    rcases List.mem_cons.mp h with h | h
    · exact absurd h (by decide)
    rcases List.mem_append.mp h with h | h
    · exact digits_no_semi t1 h1 h
    rcases List.mem_cons.mp h with h | h
    · exact absurd h (by decide)
    · exact digits_no_semi t2 h2 h
  have hstripTs : stripTs (tsLine t1 t2 cmd) = cmd := by
    unfold stripTs
    rw [if_pos ⟨rfl, by
      rw [tsLine_split]
      exact List.mem_append_right _ (List.mem_cons_self ';' cmd)⟩]
    rw [tsLine_split]
    exact afterSemi_append _ cmd hnosemi
  have hlast : (tsLine t1 t2 cmd).getLast? = cmd.getLast? := by
    rw [tsLine_split, List.getLast?_append]
    rcases cmd with _ | ⟨d, ds⟩
    · exact absurd rfl hcmdne
    · rw [List.getLast?_cons_cons]
      cases hg : (d :: ds).getLast? with
      | none => simp at hg
      | some g => rfl
  have hpyline : pyStrip (tsLine t1 t2 cmd) = tsLine t1 t2 cmd := by
    refine pyStrip_eq_self _ rfl ?_
    rw [hlast]
    exact hl
  have key : pyStrip (stripTs (tsLine t1 t2 cmd)) = cmd := by
    rw [hstripTs]
    exact pyStrip_eq_self cmd hh hl
  have hlineI : (tsLine t1 t2 cmd).isEmpty = false := rfl
  have hcmdI : cmd.isEmpty = false := by
    rcases cmd with _ | _
    · exact absurd rfl hcmdne
    · rfl
  have hscan : scanGLC inv [tsLine t1 t2 cmd].reverse = some cmd := by
    rw [List.reverse_singleton, scanGLC, hpyline, hstripTs, pyStrip_eq_self cmd hh hl]
    rw [if_neg (by rw [hlineI]; exact Bool.noConfusion),
      if_neg (by omega), if_pos (by rw [looks_eq, hinv])]
  have hfilter : (([tsLine t1 t2 cmd].map pyStrip).filter (fun l => !l.isEmpty)) =
      [tsLine t1 t2 cmd] := by
    rw [List.map_singleton, hpyline, List.filter_singleton, hlineI]
    rfl
  have hcoll : collectCmds inv 1 []
      ((([tsLine t1 t2 cmd].map pyStrip).filter (fun l => !l.isEmpty)).reverse) =
      [cmd] := by
    rw [hfilter, List.reverse_singleton, collectCmds, key]
    rw [if_neg (by rw [hcmdI]; exact Bool.noConfusion),
      if_neg (by rw [hinv]; exact Bool.noConfusion),
      if_neg (by omega), if_pos (by simp)]
    rfl
  constructor
  · obtain ⟨p, ps, hps⟩ := List.exists_cons_of_ne_nil (candidatesGLC_ne_nil e)
    unfold get_last_command
    rw [hps]
    exact goGLC_const inv [tsLine t1 t2 cmd] cmd hscan p ps
  · obtain ⟨p, ps, hps⟩ := List.exists_cons_of_ne_nil (candidatesRHL_ne_nil e)
    unfold read_history_last
    rw [hps]
    rw [goRHL_const inv [tsLine t1 t2 cmd] 1 [cmd] hcoll rfl p ps]
    rfl

/-- Witness for C4: the line `: 1690000000:0;ls -la` yields `ls -la` from
both extractors. -/
theorem C4_timestamp_strip_witness :
    (∀ c ∈ "1690000000".toList, c.isDigit = true) ∧
    (∀ c ∈ "0".toList, c.isDigit = true) ∧
    ("ls -la".toList.head?.any Char.isWhitespace = false) ∧
    ("ls -la".toList.getLast?.any Char.isWhitespace = false) ∧
    (2 ≤ "ls -la".toList.length) ∧
    (_looks_like_invocation ⟨"./tnm.py -g notes".toList, "tnm.py".toList, "tnm".toList⟩
      "ls -la".toList = false) ∧
    (get_last_command ⟨"./tnm.py -g notes".toList, "tnm.py".toList, "tnm".toList⟩
        ⟨"/usr/bin/zsh".toList, none, "/h/.zsh_history".toList, "/h/.bash_history".toList⟩
        (fun _ => some [tsLine "1690000000".toList "0".toList "ls -la".toList]) =
      some ("ls -la".toList) ∧
     read_history_last ⟨"./tnm.py -g notes".toList, "tnm.py".toList, "tnm".toList⟩
        ⟨"/usr/bin/zsh".toList, none, "/h/.zsh_history".toList, "/h/.bash_history".toList⟩
        (fun _ => some [tsLine "1690000000".toList "0".toList "ls -la".toList]) 1 =
      ["ls -la".toList]) :=
  ⟨by decide, by decide, by decide, by decide, by decide, by decide,
    C4_timestamp_strip ⟨"./tnm.py -g notes".toList, "tnm.py".toList, "tnm".toList⟩
      ⟨"/usr/bin/zsh".toList, none, "/h/.zsh_history".toList, "/h/.bash_history".toList⟩
      "1690000000".toList "0".toList "ls -la".toList
      (by decide) (by decide) (by decide) (by decide) (by decide) (by decide)⟩

/-- Claim C3 concerns the strategy order of `get_last_command`.  The
function's body never spawns the configured shell or any other process
(`subprocess` is imported by tnm.py but never used): retrieval consists of
history-file scanning only, contradicting both the spec and the
function's own docstring, which promise a shell history query first with
file reading only as a fallback.  This evaluation exhibits the behaviour
at a concrete input: with `SHELL` set to a zsh path, the result is read
directly from the `~/.zsh_history` file. -/
theorem C3_file_scan_only :
    get_last_command ⟨"./tnm.py -g notes".toList, "tnm.py".toList, "tnm".toList⟩
      ⟨"/usr/bin/zsh".toList, none, "/h/.zsh_history".toList, "/h/.bash_history".toList⟩
      (fun p => if p = "/h/.zsh_history".toList then some ["ls -la\n".toList] else none) =
      some ("ls -la".toList) := by
  decide

end Tnm
